import Mathlib

set_option maxRecDepth 100000

/-!
Shallow embedding of the DCA backtesting core of this repository:
the financial-metrics library (`src/utils/calculations.ts`) and the
simulation engine `runBacktest` (the DcaBacktester component).

Numbers are modelled as exact rationals (`ℚ`); JavaScript dates are
modelled as explicit calendar records carrying the fields the code
reads (`getFullYear`/`getMonth`/`getDate`/`getDay`).  Human-readable
`reason` strings, which no computation ever inspects, are abstracted
to lists of constant tags marking which rule fired.
-/

/-! ## calculations.ts: RSI -/

/-- Per-step price changes `prices[i] - prices[i-1]`
(the loop at `calculateRSI` lines 376-380). -/
def priceDeltas : List ℚ → List ℚ
  | [] => []
  | [_] => []
  | a :: b :: rest => (b - a) :: priceDeltas (b :: rest)

/-- One RSI output value from the current smoothed averages
(`calculateRSI` lines 398-399): `RS = 100` when `avgLoss = 0`,
else `avgGain/avgLoss`; `RSI = 100 - 100/(1+RS)`. -/
def rsiStep (avgGain avgLoss : ℚ) : ℚ :=
  let rs := if avgLoss = 0 then 100 else avgGain / avgLoss
  100 - 100 / (1 + rs)

/-- Wilder smoothing loop of `calculateRSI` (lines 392-401) for the
iterations `i > period`, consuming the remaining (gain, loss) pairs. -/
def rsiLoop (period : Nat) (avgGain avgLoss : ℚ) : List (ℚ × ℚ) → List ℚ
  | [] => []
  | (g, l) :: rest =>
    let avgGain2 := (avgGain * ((period : ℚ) - 1) + g) / (period : ℚ)
    let avgLoss2 := (avgLoss * ((period : ℚ) - 1) + l) / (period : ℚ)
    rsiStep avgGain2 avgLoss2 :: rsiLoop period avgGain2 avgLoss2 rest

/-- `calculateRSI` (calculations.ts lines 366-404).  Inputs shorter than
`period+1` get the neutral 50 everywhere; otherwise the first `period`
outputs are 50, the output at index `period` uses the simple-mean seed
averages and the rest use Wilder smoothing. -/
def calculateRSI (prices : List ℚ) (period : Nat) : List ℚ :=
  if prices.length < period + 1 then prices.map (fun _ => (50 : ℚ))
  else
    let changes := priceDeltas prices
    let gains := changes.map (fun c => if c > 0 then c else 0)
    let losses := changes.map (fun c => if c < 0 then |c| else 0)
    let avgGain := (gains.take period).sum / (period : ℚ)
    let avgLoss := (losses.take period).sum / (period : ℚ)
    List.replicate period (50 : ℚ)
      ++ rsiStep avgGain avgLoss
      :: rsiLoop period avgGain avgLoss ((gains.drop period).zip (losses.drop period))

/-! ## calculations.ts: maximum drawdown -/

/-- A `{date, value}` portfolio-value point fed to `calculateMaxDrawdown`. -/
structure DatedValue where
  date : String
  value : ℚ
deriving DecidableEq, Repr

/-- A `{date, drawdown}` charting point (drawdown already in percent). -/
structure DrawdownPoint where
  date : String
  drawdown : ℚ
deriving DecidableEq, Repr

/-- Result record of `calculateMaxDrawdown` (calculations.ts lines 235-241). -/
structure DrawdownResult where
  maxDrawdown : ℚ
  maxDrawdownPeakDate : String
  maxDrawdownTroughDate : String
  currentDrawdown : ℚ
  drawdownSeries : List DrawdownPoint
deriving DecidableEq, Repr

/-- Loop state of `calculateMaxDrawdown`: running peak and its date, the
worst raw drawdown so far with its peak/trough dates, and the emitted
series. -/
structure DDState where
  peak : ℚ
  peakDate : String
  maxDD : ℚ
  mddPeakDate : String
  mddTroughDate : String
  series : List DrawdownPoint
deriving DecidableEq, Repr

/-- Body of the `for (const {date, value} of portfolioValues)` loop in
`calculateMaxDrawdown` (lines 274-288). -/
def ddStep (st : DDState) (p : DatedValue) : DDState :=
  let peak := if p.value > st.peak then p.value else st.peak
  let peakDate := if p.value > st.peak then p.date else st.peakDate
  let drawdown := (peak - p.value) / peak
  { peak := peak
    peakDate := peakDate
    maxDD := if drawdown > st.maxDD then drawdown else st.maxDD
    mddPeakDate := if drawdown > st.maxDD then peakDate else st.mddPeakDate
    mddTroughDate := if drawdown > st.maxDD then p.date else st.mddTroughDate
    series := st.series ++ [⟨p.date, drawdown * 100⟩] }

/-- `calculateMaxDrawdown` (calculations.ts lines 253-300): single forward
pass over the value series tracking the running peak; raw drawdowns are
scaled to percent in the outputs. -/
def calculateMaxDrawdown (portfolioValues : List DatedValue) : DrawdownResult :=
  match portfolioValues with
  | [] => ⟨0, "", "", 0, []⟩
  | first :: rest =>
    let st := (first :: rest).foldl ddStep ⟨first.value, first.date, 0, first.date, first.date, []⟩
    let lastValue := (((first :: rest).getLast?).getD first).value
    ⟨st.maxDD * 100, st.mddPeakDate, st.mddTroughDate,
      (st.peak - lastValue) / st.peak * 100, st.series⟩

/-! ## Dates and market data for the engine -/

/-- A calendar day as the engine observes it through the JavaScript
`Date` accessors: `year = getFullYear()`, `month = getMonth()`
(0 = January … 11 = December), `day = getDate()` (1-based day of
month), `dow = getDay()` (0 = Sunday … 6 = Saturday).  The repository's
data model (spec §3) treats dates as unique keys of the series. -/
structure MDate where
  year : Nat
  month : Nat
  day : Nat
  dow : Nat
deriving DecidableEq, Repr

/-- One enriched market data point (`MarketDataPoint` built in
`runBacktest` lines 362-376): price plus the per-date SMA values, the
weekly RSI carried forward to daily dates, and the optional VIX level. -/
structure MarketDataPoint where
  date : MDate
  price : ℚ
  sma20 : ℚ
  sma50 : ℚ
  sma100 : ℚ
  sma200 : ℚ
  rsiWeekly : ℚ
  vix : Option ℚ
deriving DecidableEq, Repr

/-- DCA schedule frequency. -/
inductive Frequency where
  | daily | weekly | monthly | quarterly
deriving DecidableEq, Repr

/-- The rule-configuration snapshot of one `runBacktest` run: the React
state values read by the simulation branch. -/
structure RuleConfig where
  baseAmount : ℚ
  frequency : Frequency
  useDcaStrict : Bool
  useSellInMay : Bool
  useSma20Rule : Bool
  useSma50Rule : Bool
  /-- `useSmaRule` toggles the SMA-100 rule in the source. -/
  useSmaRule : Bool
  useSma200Rule : Bool
  useRsiRule : Bool
  useVixRule : Bool
  sma20Multiplier : ℚ
  sma50Multiplier : ℚ
  sma100Multiplier : ℚ
  sma200Multiplier : ℚ
  vixMultiplier : ℚ
  vixThreshold : ℚ
deriving DecidableEq, Repr

/-- Domain constraints the data model (spec §3 `RuleConfig`) places on a
configuration: positive base investment amount and per-rule multipliers
at least 1. -/
def RuleConfig.Valid (cfg : RuleConfig) : Prop :=
  0 < cfg.baseAmount ∧ 1 ≤ cfg.sma20Multiplier ∧ 1 ≤ cfg.sma50Multiplier ∧
    1 ≤ cfg.sma100Multiplier ∧ 1 ≤ cfg.sma200Multiplier ∧ 1 ≤ cfg.vixMultiplier

instance (cfg : RuleConfig) : Decidable cfg.Valid := by
  unfold RuleConfig.Valid; infer_instance

/-- Constant tags standing in for the formatted `reason` strings the
source pushes; no computation reads them back. -/
inductive ReasonTag where
  | sellInMaySkip | debtBalancing | sellInMayBonus | rsiSkip | rsiDeploy
  | sma20 | sma50 | sma100 | sma200 | vixSpike | portfolioImport
deriving DecidableEq, Repr

/-- One ledger entry (`DcaTransaction`) as produced by `runBacktest`. -/
structure DcaTransaction where
  date : MDate
  price : ℚ
  investedAmount : ℚ
  sharesBought : ℚ
  accumulatedShares : ℚ
  portfolioValue : ℚ
  multiplierApplied : ℚ
  reason : List ReasonTag
deriving DecidableEq, Repr

/-- Mutable loop state of the simulation branch: `totalShares`,
`totalInvested`, `budgetDebt`, `savedCash` (spec §3 `SimulationState`). -/
structure SimState where
  totalShares : ℚ
  totalInvested : ℚ
  budgetDebt : ℚ
  savedCash : ℚ
deriving DecidableEq, Repr

/-! ## Schedule derivation (runBacktest lines 410-428) -/

/-- Summer month test used by Sell in May: `getMonth()` in May(4)…August(7). -/
def isSummer (d : MDate) : Prop := 4 ≤ d.month ∧ d.month ≤ 7

instance (d : MDate) : Decidable (isSummer d) := by unfold isSummer; infer_instance

/-- Winter month test: September(8) onwards or up to April(3). -/
def isWinter (d : MDate) : Prop := 8 ≤ d.month ∨ d.month ≤ 3

instance (d : MDate) : Decidable (isWinter d) := by unfold isWinter; infer_instance

/-- The frequency filter of `runBacktest` lines 410-417: daily keeps every
date, weekly keeps Mondays, monthly keeps day-of-month ≤ 3, quarterly
keeps day-of-month ≤ 3 in months Jan/Apr/Jul/Oct. -/
def dcaDates (freq : Frequency) (data : List MarketDataPoint) : List MarketDataPoint :=
  data.filter (fun pt =>
    match freq with
    | .daily => true
    | .weekly => pt.date.dow == 1
    | .monthly => decide (pt.date.day ≤ 3)
    | .quarterly =>
        decide (pt.date.day ≤ 3) &&
          (pt.date.month == 0 || pt.date.month == 3 || pt.date.month == 6 || pt.date.month == 9))

/-- Month-dedup pass of `runBacktest` lines 420-428, keyed by the
`YYYY-MM` prefix of the date string, i.e. the (year, month) pair. -/
def dedupByMonth (seen : List (Nat × Nat)) : List MarketDataPoint → List MarketDataPoint
  | [] => []
  | pt :: rest =>
    if (pt.date.year, pt.date.month) ∈ seen then dedupByMonth seen rest
    else pt :: dedupByMonth ((pt.date.year, pt.date.month) :: seen) rest

/-- `filteredDates` of `runBacktest`: the frequency filter, deduplicated
to one date per month only when the frequency is monthly. -/
def filteredDates (freq : Frequency) (data : List MarketDataPoint) : List MarketDataPoint :=
  if freq = .monthly then dedupByMonth [] (dcaDates freq data) else dcaDates freq data

/-! ## VIX precomputation (runBacktest lines 477-496)

The source stores, for each scheduled date, the maximum VIX seen in
`data` between the previous scheduled date (exclusive, via
`lastDcaIndex`) and the current one (inclusive), in a map keyed by the
date.  Dates are unique keys of the series (spec §3), so the per-key
map coincides with the per-position list computed here. -/

/-- The inner `for (j = lastDcaIndex; j <= dcaDateIndex && j < data.length)`
maximum: fold of the truthiness-guarded comparison at lines 489-493
over the relevant slice. -/
def maxVixOfSlice (slice : List MarketDataPoint) : ℚ :=
  slice.foldl
    (fun m d => match d.vix with
      | some v => if v ≠ 0 ∧ v > m then v else m
      | none => m) 0

/-- `findIndex` on the data series by date; `-1` when absent, as in JS. -/
def dcaDateIndex (data : List MarketDataPoint) (d : MDate) : Int :=
  match data.findIdx? (fun pt => pt.date == d) with
  | some i => (i : Int)
  | none => -1

/-- The per-scheduled-date max-VIX values (runBacktest lines 483-496),
one entry per element of `filtered`, threading `lastDcaIndex`. -/
def maxVixList (data : List MarketDataPoint) (lastDcaIndex : Nat) :
    List MarketDataPoint → List ℚ
  | [] => []
  | pt :: rest =>
    let idx := dcaDateIndex data pt.date
    let m :=
      if idx < (lastDcaIndex : Int) then 0
      else maxVixOfSlice ((data.drop lastDcaIndex).take (idx.toNat + 1 - lastDcaIndex))
    m :: maxVixList data (idx + 1).toNat rest

/-! ## Per-scheduled-date evaluation (runBacktest lines 498-650) -/

/-- `effectiveBaseAmount` after the debt-balancing check (lines 540-545):
the base contribution is waived when `budgetDebt ≥ baseAmount`. -/
def effectiveBase (cfg : RuleConfig) (st : SimState) : ℚ :=
  if st.budgetDebt ≥ cfg.baseAmount then 0 else cfg.baseAmount

/-- `budgetDebt` after the debt-balancing check. -/
def debtAfterWaive (cfg : RuleConfig) (st : SimState) : ℚ :=
  if st.budgetDebt ≥ cfg.baseAmount then st.budgetDebt - cfg.baseAmount else st.budgetDebt

/-- The `amount` after the Sell-in-May winter bonus step (lines 549-554),
before the RSI and multiplier rules run. -/
def preRuleAmount (cfg : RuleConfig) (bonus : ℚ) (st : SimState) (pt : MarketDataPoint) : ℚ :=
  if cfg.useSellInMay = true ∧ ¬isSummer pt.date ∧ bonus > 0 then
    effectiveBase cfg st + bonus
  else effectiveBase cfg st

/-- The additive multiplier contribution of one SMA rule as the source
computes it (lines 593-619): the boost fires exactly when the rule is
enabled and the price is currently below a truthy (nonzero) SMA value.
The previous day's position relative to the SMA is not consulted. -/
def smaBoost (enabled : Bool) (mult sma price : ℚ) : ℚ :=
  if enabled = true ∧ sma ≠ 0 ∧ price < sma then mult - 1 else 0

/-- The `maxVixSincePrevDcaMap.get(pt.date) || pt.vix || 0` fallback
chain at line 622. -/
def vixFallback (mv : ℚ) (pt : MarketDataPoint) : ℚ :=
  if mv ≠ 0 then mv
  else match pt.vix with
    | some v => if v ≠ 0 then v else 0
    | none => 0

/-- The VIX rule's additive multiplier contribution (lines 621-626). -/
def vixBoost (cfg : RuleConfig) (mv : ℚ) (pt : MarketDataPoint) : ℚ :=
  if cfg.useVixRule = true ∧ vixFallback mv pt > cfg.vixThreshold then
    cfg.vixMultiplier - 1
  else 0

/-- The cumulative multiplier after all four SMA rules and the VIX rule,
stated the spec's way: start at 1 and add each firing rule's
`(multiplier − 1)` boost. -/
def ruleMultiplier (cfg : RuleConfig) (mv : ℚ) (pt : MarketDataPoint) : ℚ :=
  1 + smaBoost cfg.useSma20Rule cfg.sma20Multiplier pt.sma20 pt.price
    + smaBoost cfg.useSma50Rule cfg.sma50Multiplier pt.sma50 pt.price
    + smaBoost cfg.useSmaRule cfg.sma100Multiplier pt.sma100 pt.price
    + smaBoost cfg.useSma200Rule cfg.sma200Multiplier pt.sma200 pt.price
    + vixBoost cfg mv pt

/-- The `multiplier` variable of the source loop, translated literally:
it starts at 1 and each rule block at lines 593-626 conditionally
executes `multiplier += (ruleMultiplier - 1)`. -/
def sourceMultiplier (cfg : RuleConfig) (mv : ℚ) (pt : MarketDataPoint) : ℚ :=
  let m0 : ℚ := 1
  let m1 := if cfg.useSma20Rule = true ∧ pt.sma20 ≠ 0 ∧ pt.price < pt.sma20 then
    m0 + (cfg.sma20Multiplier - 1) else m0
  let m2 := if cfg.useSma50Rule = true ∧ pt.sma50 ≠ 0 ∧ pt.price < pt.sma50 then
    m1 + (cfg.sma50Multiplier - 1) else m1
  let m3 := if cfg.useSmaRule = true ∧ pt.sma100 ≠ 0 ∧ pt.price < pt.sma100 then
    m2 + (cfg.sma100Multiplier - 1) else m2
  let m4 := if cfg.useSma200Rule = true ∧ pt.sma200 ≠ 0 ∧ pt.price < pt.sma200 then
    m3 + (cfg.sma200Multiplier - 1) else m3
  if cfg.useVixRule = true ∧ vixFallback mv pt > cfg.vixThreshold then
    m4 + (cfg.vixMultiplier - 1) else m4

/-- The reason tags pushed by the rule blocks at lines 593-626. -/
def ruleReasons (cfg : RuleConfig) (mv : ℚ) (pt : MarketDataPoint) : List ReasonTag :=
  (if cfg.useSma20Rule = true ∧ pt.sma20 ≠ 0 ∧ pt.price < pt.sma20 then
    [ReasonTag.sma20] else [])
  ++ (if cfg.useSma50Rule = true ∧ pt.sma50 ≠ 0 ∧ pt.price < pt.sma50 then
    [ReasonTag.sma50] else [])
  ++ (if cfg.useSmaRule = true ∧ pt.sma100 ≠ 0 ∧ pt.price < pt.sma100 then
    [ReasonTag.sma100] else [])
  ++ (if cfg.useSma200Rule = true ∧ pt.sma200 ≠ 0 ∧ pt.price < pt.sma200 then
    [ReasonTag.sma200] else [])
  ++ (if cfg.useVixRule = true ∧ vixFallback mv pt > cfg.vixThreshold then
    [ReasonTag.vixSpike] else [])

/-- Body of the `filteredDates.forEach` loop of `runBacktest`
(lines 498-650): evaluates one scheduled date against the rule chain
(strict → Sell-in-May summer skip → debt waiver → winter bonus →
zero-amount skip → RSI skip/deploy → SMA and VIX multipliers) and
returns the updated simulation state together with the appended
transaction.  `mv` is this date's precomputed max-VIX value. -/
def processDate (cfg : RuleConfig) (bonus : ℚ) (mv : ℚ) (st : SimState)
    (pt : MarketDataPoint) : SimState × DcaTransaction :=
  if cfg.useDcaStrict = true then
    let amount := cfg.baseAmount
    let sharesBought := amount / pt.price
    let totalShares := st.totalShares + sharesBought
    ({ st with totalShares := totalShares, totalInvested := st.totalInvested + amount },
      ⟨pt.date, pt.price, amount, sharesBought, totalShares, totalShares * pt.price, 1, []⟩)
  else if cfg.useSellInMay = true ∧ isSummer pt.date then
    (st, ⟨pt.date, pt.price, 0, 0, st.totalShares, st.totalShares * pt.price, 0,
      [.sellInMaySkip]⟩)
  else
    let budgetDebt1 := debtAfterWaive cfg st
    let reasons1 : List ReasonTag :=
      if st.budgetDebt ≥ cfg.baseAmount then [.debtBalancing] else []
    let amount1 := preRuleAmount cfg bonus st pt
    let reasons2 := reasons1 ++
      (if cfg.useSellInMay = true ∧ ¬isSummer pt.date ∧ bonus > 0 then
        [ReasonTag.sellInMayBonus] else [])
    if amount1 ≤ 0 then
      ({ st with budgetDebt := budgetDebt1 },
        ⟨pt.date, pt.price, 0, 0, st.totalShares, st.totalShares * pt.price, 0, reasons2⟩)
    else if cfg.useRsiRule = true ∧ pt.rsiWeekly ≠ 0 ∧ pt.rsiWeekly > 70 then
      ({ st with budgetDebt := budgetDebt1, savedCash := st.savedCash + cfg.baseAmount },
        ⟨pt.date, pt.price, 0, 0, st.totalShares, st.totalShares * pt.price, 0, [.rsiSkip]⟩)
    else
      let deploy := cfg.useRsiRule = true ∧ pt.rsiWeekly ≠ 0 ∧ pt.rsiWeekly < 30 ∧
        st.savedCash > 0
      let amount2 := if deploy then amount1 + st.savedCash else amount1
      let savedCash2 := if deploy then 0 else st.savedCash
      let reasons3 := reasons2 ++ (if deploy then [ReasonTag.rsiDeploy] else [])
      let multiplier := sourceMultiplier cfg mv pt
      let finalAmount := amount2 * multiplier
      let sharesBought := finalAmount / pt.price
      let extraSpent := finalAmount - cfg.baseAmount
      let budgetDebt2 := if extraSpent > 0 then budgetDebt1 + extraSpent else budgetDebt1
      let totalShares := st.totalShares + sharesBought
      (⟨totalShares, st.totalInvested + finalAmount, budgetDebt2, savedCash2⟩,
        ⟨pt.date, pt.price, finalAmount, sharesBought, totalShares,
          totalShares * pt.price, multiplier, reasons3 ++ ruleReasons cfg mv pt⟩)

/-- The scheduled-date loop: fold `processDate` over the scheduled dates
paired with their precomputed max-VIX values, emitting one transaction
per scheduled date. -/
def runSimAux (cfg : RuleConfig) (bonus : ℚ) :
    SimState → List (MarketDataPoint × ℚ) → List DcaTransaction
  | _, [] => []
  | st, (pt, mv) :: rest =>
    let r := processDate cfg bonus mv st pt
    r.2 :: runSimAux cfg bonus r.1 rest

/-- The Sell-in-May per-winter-date bonus (runBacktest lines 436-447):
summer = scheduled dates in May–August, winter = the rest; bonus =
(summer count × base amount) / winter count when winter is non-empty. -/
def sellInMayBonus (cfg : RuleConfig) (filtered : List MarketDataPoint) : ℚ :=
  let summerDates := filtered.filter (fun pt => decide (isSummer pt.date))
  let winterDates := filtered.filter (fun pt => decide (isWinter pt.date))
  if winterDates.length > 0 then
    ((summerDates.length : ℚ) * cfg.baseAmount) / (winterDates.length : ℚ)
  else 0

/-- Schedule-driven simulation branch of `runBacktest` (lines 404-651):
derive the schedule from the market series, precompute the Sell-in-May
bonus and the per-date max-VIX values, then run the rule chain over the
scheduled dates starting from the all-zero simulation state. -/
def runBacktestSim (cfg : RuleConfig) (data : List MarketDataPoint) : List DcaTransaction :=
  let filtered := filteredDates cfg.frequency data
  runSimAux cfg (sellInMayBonus cfg filtered) ⟨0, 0, 0, 0⟩
    (filtered.zip (maxVixList data 0 filtered))

/-! ## Portfolio-import branch (runBacktest lines 383-403) -/

/-- One imported portfolio transaction as fetched from the backend
(`ApiTransaction`); only the fields the mapping reads are modelled. -/
structure ApiTransaction where
  date : MDate
  quantity : ℚ
  price : ℚ
  invested_amount : ℚ
deriving DecidableEq, Repr

/-- The market price joined to an imported transaction (line 391 and the
`pricePoint?.price || ptx.price` fallback at line 399): the data point
with the same date, else the last data point, else — or when the joined
price is falsy — the transaction's own unit price. -/
def joinedPrice (data : List MarketDataPoint) (ptx : ApiTransaction) : ℚ :=
  match (data.find? (fun d => d.date == ptx.date)).orElse (fun _ => data.getLast?) with
  | some pp => if pp.price ≠ 0 then pp.price else ptx.price
  | none => ptx.price

/-- Import-branch ledger construction: `accumulatedShares` is the
running sum of the imported quantities and `portfolioValue` multiplies
it by the joined market price (lines 387-403). -/
def runBacktestImport (data : List MarketDataPoint) :
    ℚ → List ApiTransaction → List DcaTransaction
  | _, [] => []
  | totalShares0, ptx :: rest =>
    let totalShares := totalShares0 + ptx.quantity
    ⟨ptx.date, ptx.price, ptx.invested_amount, ptx.quantity, totalShares,
        totalShares * joinedPrice data ptx, 1, [.portfolioImport]⟩
      :: runBacktestImport data totalShares rest

/-! ## calculations.ts: best and worst months (lines 489-533)

The function groups the ledger by the `YYYY-MM` prefix of the
transaction date — here the (year, month) pair — computes one return
per month, sorts descending by return with
`sort((a, b) => b.return - a.return)`, and picks the first and last of
the sorted list.  An otherwise unspecified stable JS sort is modelled
by an insertion sort for the same comparator; the claims do not depend
on the order of equal returns. -/

/-- One `{month, return}` record; the source field `return` is named
`ret` here. -/
structure MonthlyReturn where
  month : Nat × Nat
  ret : ℚ
deriving DecidableEq, Repr

/-- A `{date, return}` half of the result; `date` is the month key, or
`none` for the source's empty-string placeholder. -/
structure MonthExtreme where
  date : Option (Nat × Nat)
  ret : ℚ
deriving DecidableEq, Repr

/-- Result record of `calculateBestWorstMonths`. -/
structure BestWorstResult where
  best : MonthExtreme
  worst : MonthExtreme
deriving DecidableEq, Repr

/-- The `YYYY-MM` month key of a transaction date. -/
def monthKey (tx : DcaTransaction) : Nat × Nat := (tx.date.year, tx.date.month)

/-- The month-grouping loop of `calculateBestWorstMonths`
(lines 500-518), including the final push for the last open month:
`prevTx` is the transaction at index `i - 1`. -/
def monthlyReturnsAux (prevMonthValue : ℚ) (currentMonth : Nat × Nat)
    (prevTx : DcaTransaction) : List DcaTransaction → List MonthlyReturn
  | [] => [⟨currentMonth, (prevTx.portfolioValue - prevMonthValue) / prevMonthValue * 100⟩]
  | tx :: rest =>
    if monthKey tx ≠ currentMonth then
      ⟨currentMonth, (prevTx.portfolioValue - prevMonthValue) / prevMonthValue * 100⟩
        :: monthlyReturnsAux prevTx.portfolioValue (monthKey tx) tx rest
    else monthlyReturnsAux prevMonthValue currentMonth tx rest

/-- Insert a record into a list kept in descending `ret` order. -/
def insertDesc (x : MonthlyReturn) : List MonthlyReturn → List MonthlyReturn
  | [] => [x]
  | y :: ys => if y.ret ≤ x.ret then x :: y :: ys else y :: insertDesc x ys

/-- Sort descending by `ret`: the model of
`sort((a, b) => b.return - a.return)` at line 527. -/
def sortDesc : List MonthlyReturn → List MonthlyReturn
  | [] => []
  | x :: xs => insertDesc x (sortDesc xs)

/-- `calculateBestWorstMonths` (calculations.ts lines 489-533). -/
def calculateBestWorstMonths (txs : List DcaTransaction) : BestWorstResult :=
  match txs with
  | [] => ⟨⟨none, 0⟩, ⟨none, 0⟩⟩
  | [_] => ⟨⟨none, 0⟩, ⟨none, 0⟩⟩
  | t0 :: t1 :: rest =>
    let monthlyReturns := monthlyReturnsAux t0.portfolioValue (monthKey t0) t0 (t1 :: rest)
    match sortDesc monthlyReturns with
    | [] => ⟨⟨none, 0⟩, ⟨none, 0⟩⟩
    | s :: ss =>
      ⟨⟨some s.month, s.ret⟩,
        ⟨some ((s :: ss).getLast (List.cons_ne_nil s ss)).month,
          ((s :: ss).getLast (List.cons_ne_nil s ss)).ret⟩⟩

/-! ## Ledger predicates and concrete test inputs -/

/-- `accFrom s L`: starting from the running total `s`, each
transaction's `accumulatedShares` equals the previous running total
plus its own `sharesBought` — the running-sum ledger invariant. -/
def accFrom : ℚ → List DcaTransaction → Prop
  | _, [] => True
  | s, tx :: rest =>
    tx.accumulatedShares = s + tx.sharesBought ∧ accFrom tx.accumulatedShares rest

instance instDecidableAccFrom : ∀ (s : ℚ) (L : List DcaTransaction), Decidable (accFrom s L)
  | _, [] => .isTrue trivial
  | _, tx :: rest =>
    have h : Decidable (accFrom tx.accumulatedShares rest) := instDecidableAccFrom _ _
    @instDecidableAnd _ _ _ h

/-- A bare market point: given price, no SMA/VIX signal, neutral RSI. -/
def plainPoint (y m d : Nat) (price : ℚ) : MarketDataPoint :=
  ⟨⟨y, m, d, 0⟩, price, 0, 0, 0, 0, 50, none⟩

/-- A market point with a nontrivial SMA-20 value. -/
def sma20Point (y m d : Nat) (price sma20 : ℚ) : MarketDataPoint :=
  ⟨⟨y, m, d, 0⟩, price, sma20, 0, 0, 0, 50, none⟩

/-- Monthly Sell-in-May configuration, base amount 100, all other rules
off. -/
def sellInMayCfg : RuleConfig :=
  { baseAmount := 100, frequency := .monthly,
    useDcaStrict := false, useSellInMay := true,
    useSma20Rule := false, useSma50Rule := false, useSmaRule := false,
    useSma200Rule := false, useRsiRule := false, useVixRule := false,
    sma20Multiplier := 2, sma50Multiplier := 2, sma100Multiplier := 2,
    sma200Multiplier := 2, vixMultiplier := 3, vixThreshold := 40 }

/-- One market point on the first of each month of 2024: a schedule
covering a full calendar year (4 summer dates, 8 winter dates). -/
def fullYearData : List MarketDataPoint :=
  (List.range 12).map (fun m => plainPoint 2024 m 1 1)

/-- Monthly configuration with only the SMA-20 rule (multiplier 2) on. -/
def sma20OnlyCfg : RuleConfig :=
  { sellInMayCfg with useSellInMay := false, useSma20Rule := true }

/-- Two consecutive days, both priced strictly below a SMA-20 of 10:
Jan 31 (not a scheduled date) then Feb 1 (scheduled).  The price stays
below the SMA across the two days — no fresh downward crossing. -/
def stayBelowData : List MarketDataPoint :=
  [sma20Point 2024 0 31 5 10, sma20Point 2024 1 1 6 10]

/-- Strict-mode variant of the monthly configuration. -/
def strictCfg : RuleConfig :=
  { sellInMayCfg with useDcaStrict := true, useSellInMay := false }

/-- Three consecutive days 1–3 of January, a quarter-start month. -/
def quarterlyTripleData : List MarketDataPoint :=
  [plainPoint 2024 0 1 1, plainPoint 2024 0 2 1, plainPoint 2024 0 3 1]

/-- A one-point market series whose price (20) differs from the
imported transaction's unit price (10). -/
def importJoinData : List MarketDataPoint := [plainPoint 2024 0 1 20]

/-- One imported transaction: 1 share at unit price 10 on the same date
as `importJoinData`'s point. -/
def importJoinPtx : ApiTransaction := ⟨⟨2024, 0, 1, 0⟩, 1, 10, 10⟩

/-- Two ledger transactions in different months, for witnesses. -/
def twoMonthTxs : List DcaTransaction :=
  [⟨⟨2024, 0, 1, 0⟩, 10, 100, 10, 10, 100, 1, []⟩,
    ⟨⟨2024, 1, 1, 0⟩, 11, 100, 9, 19, 209, 1, []⟩]

/-! ## Helper lemmas -/

theorem priceDeltas_length : ∀ (l : List ℚ), (priceDeltas l).length = l.length - 1
  | [] => rfl
  | [_] => rfl
  | a :: b :: rest => by
    have ih := priceDeltas_length (b :: rest)
    simp only [priceDeltas, List.length_cons] at ih ⊢
    omega

theorem rsiLoop_length (period : Nat) :
    ∀ (g l : ℚ) (pairs : List (ℚ × ℚ)), (rsiLoop period g l pairs).length = pairs.length
  | _, _, [] => rfl
  | g, l, (a, b) :: rest => by
    simp only [rsiLoop, List.length_cons]
    exact congrArg (· + 1) (rsiLoop_length period _ _ rest)

/-- C8: `calculateRSI` preserves the length of its input; inputs shorter
than `period+1` are mapped to the all-50 neutral list, and otherwise the
first `period` output values are all 50. -/
theorem calculateRSI_length_and_neutral_prefix_holds (prices : List ℚ) (period : Nat) :
    (calculateRSI prices period).length = prices.length
    ∧ (prices.length < period + 1 →
        calculateRSI prices period = List.replicate prices.length 50)
    ∧ (period + 1 ≤ prices.length →
        (calculateRSI prices period).take period = List.replicate period (50 : ℚ)) := by
  refine ⟨?_, ?_, ?_⟩
  · by_cases h : prices.length < period + 1
    · simp [calculateRSI, h]
    · simp only [calculateRSI, if_neg h]
      simp only [List.length_append, List.length_cons, List.length_replicate,
        rsiLoop_length, List.length_zip, List.length_drop, List.length_map,
        priceDeltas_length]
      omega
  · intro h
    simp [calculateRSI, h, List.map_const']
  · intro h
    have hn : ¬ prices.length < period + 1 := by omega
    simp only [calculateRSI, if_neg hn]
    exact List.take_left' (List.length_replicate _ _)

/-- Witness for C8 at concrete inputs (both hypotheses discharged). -/
theorem calculateRSI_length_and_neutral_prefix_holds_witness :
    (calculateRSI [1, 2, 3] 2).length = 3
    ∧ calculateRSI [1, 2] 14 = List.replicate 2 50
    ∧ (calculateRSI [1, 2, 3] 2).take 2 = List.replicate 2 (50 : ℚ) :=
  ⟨(calculateRSI_length_and_neutral_prefix_holds [1, 2, 3] 2).1,
    (calculateRSI_length_and_neutral_prefix_holds [1, 2] 14).2.1 (by decide),
    (calculateRSI_length_and_neutral_prefix_holds [1, 2, 3] 2).2.2 (by decide)⟩

/-- C3 (amended): the quarterly schedule keeps every market date with
day-of-month ≤ 3 in a quarter-start month; no per-month deduplication
is applied (the dedup pass only runs for the monthly frequency). -/
theorem filteredDates_quarterly (data : List MarketDataPoint) :
    filteredDates .quarterly data = dcaDates .quarterly data := by
  unfold filteredDates
  exact if_neg (by decide)

theorem quarterly_schedule_keeps_every_match (data : List MarketDataPoint)
    (pt : MarketDataPoint) :
    pt ∈ filteredDates .quarterly data ↔
      pt ∈ data ∧ pt.date.day ≤ 3 ∧
        (pt.date.month = 0 ∨ pt.date.month = 3 ∨ pt.date.month = 6 ∨ pt.date.month = 9) := by
  rw [filteredDates_quarterly]
  simp only [dcaDates, List.mem_filter, Bool.and_eq_true,
    Bool.or_eq_true, decide_eq_true_eq, beq_iff_eq]
  tauto

/-- Witness for C3's amended theorem: the second of two day-≤-3 dates in
January is itself scheduled. -/
theorem quarterly_schedule_keeps_every_match_witness :
    plainPoint 2024 0 2 1 ∈ filteredDates .quarterly quarterlyTripleData :=
  (quarterly_schedule_keeps_every_match quarterlyTripleData (plainPoint 2024 0 2 1)).mpr
    ⟨by simp [quarterlyTripleData], by decide, by decide⟩

/-- C3 counterexample: with quarterly frequency and a series containing
January 1, 2 and 3, all three days become scheduled dates — the derived
schedule holds three dates in a single quarter-start month, not at most
one, and the later two duplicates are not removed. -/
theorem quarterly_schedule_duplicate_month_cex :
    (filteredDates .quarterly quarterlyTripleData).map (fun pt => (pt.date.month, pt.date.day))
      = [(0, 1), (0, 2), (0, 3)] := by
  with_unfolding_all decide

theorem processDate_pv (cfg : RuleConfig) (bonus mv : ℚ) (st : SimState)
    (pt : MarketDataPoint) :
    (processDate cfg bonus mv st pt).2.portfolioValue
        = (processDate cfg bonus mv st pt).2.accumulatedShares
            * (processDate cfg bonus mv st pt).2.price := by
  simp only [processDate]
  split_ifs <;> rfl

theorem runSimAux_pv (cfg : RuleConfig) (bonus : ℚ) :
    ∀ (pairs : List (MarketDataPoint × ℚ)) (st : SimState),
      ∀ tx ∈ runSimAux cfg bonus st pairs,
        tx.portfolioValue = tx.accumulatedShares * tx.price
  | [], _, _, h => absurd h (List.not_mem_nil _)
  | (pt, mv) :: rest, st, tx, h => by
    rw [runSimAux] at h
    rcases List.mem_cons.mp h with h1 | h2
    · exact h1 ▸ processDate_pv cfg bonus mv st pt
    · exact runSimAux_pv cfg bonus rest _ tx h2

/-- C4 (amended): in schedule-driven simulation mode every transaction
satisfies `portfolioValue = accumulatedShares × price` with `price` the
transaction's own price field.  (In portfolio-import mode the invariant
fails: `portfolioValue` is computed from the joined market price, not
the transaction's price field — see the counterexample.) -/
theorem sim_portfolioValue_eq_shares_times_price (cfg : RuleConfig)
    (data : List MarketDataPoint) :
    ∀ tx ∈ runBacktestSim cfg data,
      tx.portfolioValue = tx.accumulatedShares * tx.price := by
  intro tx h
  exact runSimAux_pv cfg _ _ _ tx h

/-- Witness for C4's amended theorem on a concrete run. -/
theorem sim_portfolioValue_eq_shares_times_price_witness :
    ∃ tx, tx ∈ runBacktestSim strictCfg fullYearData
      ∧ tx.portfolioValue = tx.accumulatedShares * tx.price := by
  have hmem : (runBacktestSim strictCfg fullYearData).head?.isSome = true := by
    with_unfolding_all decide
  rcases Option.isSome_iff_exists.mp hmem with ⟨tx, htx⟩
  exact ⟨tx, List.mem_of_mem_head? htx,
    sim_portfolioValue_eq_shares_times_price strictCfg fullYearData tx
      (List.mem_of_mem_head? htx)⟩

/-- C4 counterexample: in portfolio-import mode, an imported transaction
bought at unit price 10 on a date whose market price is 20 yields
`portfolioValue = 20` but `accumulatedShares × price = 10`, so
`portfolioValue ≠ accumulatedShares × price`. -/
theorem import_portfolioValue_uses_market_price_cex :
    (runBacktestImport importJoinData 0 [importJoinPtx]).map
        (fun tx => (tx.portfolioValue, tx.accumulatedShares * tx.price))
      = [(20, 10)]
    ∧ (20 : ℚ) ≠ 10 := by
  constructor
  · with_unfolding_all decide
  · with_unfolding_all decide

theorem maxVixList_length (data : List MarketDataPoint) :
    ∀ (i : Nat) (l : List MarketDataPoint), (maxVixList data i l).length = l.length
  | _, [] => rfl
  | i, pt :: rest => by
    simp only [maxVixList, List.length_cons]
    exact congrArg (· + 1) (maxVixList_length data _ rest)

theorem runSimAux_strict (cfg : RuleConfig) (hs : cfg.useDcaStrict = true) (bonus : ℚ) :
    ∀ (pairs : List (MarketDataPoint × ℚ)) (st : SimState),
      (runSimAux cfg bonus st pairs).length = pairs.length
      ∧ (∀ tx ∈ runSimAux cfg bonus st pairs,
          tx.investedAmount = cfg.baseAmount ∧ tx.multiplierApplied = 1)
      ∧ ((runSimAux cfg bonus st pairs).map DcaTransaction.investedAmount).sum
          = cfg.baseAmount * (pairs.length : ℚ)
  | [], _ => by simp [runSimAux]
  | (pt, mv) :: rest, st => by
    have hbranch :
        processDate cfg bonus mv st pt
          = ({ st with
                totalShares := st.totalShares + cfg.baseAmount / pt.price,
                totalInvested := st.totalInvested + cfg.baseAmount },
              ⟨pt.date, pt.price, cfg.baseAmount, cfg.baseAmount / pt.price,
                st.totalShares + cfg.baseAmount / pt.price,
                (st.totalShares + cfg.baseAmount / pt.price) * pt.price, 1, []⟩) := by
      simp only [processDate, if_pos hs]
    have ih := runSimAux_strict cfg hs bonus rest
      ({ st with
          totalShares := st.totalShares + cfg.baseAmount / pt.price,
          totalInvested := st.totalInvested + cfg.baseAmount })
    refine ⟨?_, ?_, ?_⟩
    · simp only [runSimAux, hbranch, List.length_cons]
      exact congrArg (· + 1) ih.1
    · intro tx htx
      simp only [runSimAux, hbranch, List.mem_cons] at htx
      rcases htx with h1 | h2
      · subst h1; exact ⟨rfl, rfl⟩
      · exact ih.2.1 tx h2
    · simp only [runSimAux, hbranch, List.map_cons, List.sum_cons, List.length_cons]
      rw [ih.2.2]
      push_cast
      ring

/-- C5: in strict mode every scheduled date yields exactly one
transaction investing exactly the base amount with multiplier 1, so the
ledger length equals the schedule length and the total invested equals
`baseAmount × N`, independently of every other flag, multiplier and
indicator value. -/
theorem strict_mode_invests_exactly_base (cfg : RuleConfig) (data : List MarketDataPoint)
    (hs : cfg.useDcaStrict = true) :
    (runBacktestSim cfg data).length = (filteredDates cfg.frequency data).length
    ∧ (∀ tx ∈ runBacktestSim cfg data,
        tx.investedAmount = cfg.baseAmount ∧ tx.multiplierApplied = 1)
    ∧ ((runBacktestSim cfg data).map DcaTransaction.investedAmount).sum
        = cfg.baseAmount * ((filteredDates cfg.frequency data).length : ℚ) := by
  have hzip : ((filteredDates cfg.frequency data).zip
      (maxVixList data 0 (filteredDates cfg.frequency data))).length
      = (filteredDates cfg.frequency data).length := by
    rw [List.length_zip, maxVixList_length, Nat.min_self]
  have h := runSimAux_strict cfg hs (sellInMayBonus cfg (filteredDates cfg.frequency data))
    ((filteredDates cfg.frequency data).zip
      (maxVixList data 0 (filteredDates cfg.frequency data))) ⟨0, 0, 0, 0⟩
  refine ⟨?_, ?_, ?_⟩
  · rw [runBacktestSim]
    rw [h.1, hzip]
  · intro tx htx
    exact h.2.1 tx htx
  · rw [runBacktestSim]
    rw [h.2.2, hzip]

/-- Witness for C5: the strict configuration over the full-year series
invests 100 on each of the 12 scheduled dates, 1200 in total. -/
theorem strict_mode_invests_exactly_base_witness :
    (runBacktestSim strictCfg fullYearData).length
        = (filteredDates strictCfg.frequency fullYearData).length
    ∧ ((runBacktestSim strictCfg fullYearData).map DcaTransaction.investedAmount).sum
        = strictCfg.baseAmount * ((filteredDates strictCfg.frequency fullYearData).length : ℚ) :=
  ⟨(strict_mode_invests_exactly_base strictCfg fullYearData rfl).1,
    (strict_mode_invests_exactly_base strictCfg fullYearData rfl).2.2⟩

/-- C2 failing input: with Sell-in-May on and all other rules off over a
full calendar year of monthly dates (4 summer, 8 winter), the winter
bonus is 400/8 = 50, but the bonus itself is counted as over-spend by
the budget-debt tracker, so the March and October base contributions are
waived: those dates invest only 50 instead of 150 and the year's total
is 1000, not `baseAmount × 12 = 1200`. -/
theorem sellInMay_total_not_base_times_dates :
    (runBacktestSim sellInMayCfg fullYearData).map DcaTransaction.investedAmount
      = [150, 150, 50, 150, 0, 0, 0, 0, 150, 50, 150, 150]
    ∧ ((runBacktestSim sellInMayCfg fullYearData).map DcaTransaction.investedAmount).sum
        = 1000
    ∧ sellInMayBonus sellInMayCfg (filteredDates sellInMayCfg.frequency fullYearData) = 50
    ∧ sellInMayCfg.baseAmount
        * ((filteredDates sellInMayCfg.frequency fullYearData).length : ℚ) = 1200
    ∧ (1000 : ℚ) ≠ 1200 := by
  refine ⟨?_, ?_, ?_, ?_, ?_⟩ <;> with_unfolding_all decide

theorem sourceMultiplier_eq_ruleMultiplier (cfg : RuleConfig) (mv : ℚ)
    (pt : MarketDataPoint) : sourceMultiplier cfg mv pt = ruleMultiplier cfg mv pt := by
  simp only [sourceMultiplier, ruleMultiplier, smaBoost, vixBoost]
  split_ifs <;> ring

/-- C1 (amended): whenever a scheduled date reaches the rule-evaluation
stage (strict mode off, not a Sell-in-May summer skip, positive
pre-rule amount, not an RSI-overbought skip), the transaction's
multiplier is exactly `1` plus, for each enabled SMA rule, the
`(multiplier − 1)` boost added if and only if the price is currently
strictly below that (nonzero) SMA — the previous calendar day's
position relative to the SMA is not consulted — plus the VIX boost. -/
theorem sma_boost_fires_iff_currently_below (cfg : RuleConfig) (bonus mv : ℚ)
    (st : SimState) (pt : MarketDataPoint)
    (h1 : cfg.useDcaStrict = false)
    (h2 : ¬(cfg.useSellInMay = true ∧ isSummer pt.date))
    (h3 : 0 < preRuleAmount cfg bonus st pt)
    (h4 : ¬(cfg.useRsiRule = true ∧ pt.rsiWeekly ≠ 0 ∧ pt.rsiWeekly > 70)) :
    (processDate cfg bonus mv st pt).2.multiplierApplied = ruleMultiplier cfg mv pt := by
  have hn1 : ¬ cfg.useDcaStrict = true := by simp [h1]
  have hn3 : ¬ preRuleAmount cfg bonus st pt ≤ 0 := not_le.mpr h3
  simp only [processDate, if_neg hn1, if_neg h2, if_neg hn3, if_neg h4]
  exact sourceMultiplier_eq_ruleMultiplier cfg mv pt

/-- Witness for C1's amended theorem at a concrete date: the scheduled
Feb 1 point of `stayBelowData`, whose price 6 is below its SMA-20 of
10, gets multiplier `1 + (2 - 1) = 2`. -/
theorem sma_boost_fires_iff_currently_below_witness :
    (processDate sma20OnlyCfg 0 0 ⟨0, 0, 0, 0⟩ (sma20Point 2024 1 1 6 10)).2.multiplierApplied
      = ruleMultiplier sma20OnlyCfg 0 (sma20Point 2024 1 1 6 10)
    ∧ ruleMultiplier sma20OnlyCfg 0 (sma20Point 2024 1 1 6 10) = 2 :=
  ⟨sma_boost_fires_iff_currently_below sma20OnlyCfg 0 0 ⟨0, 0, 0, 0⟩
      (sma20Point 2024 1 1 6 10) rfl
      (by with_unfolding_all decide)
      (by with_unfolding_all decide)
      (by with_unfolding_all decide),
    by with_unfolding_all decide⟩

/-- C1 counterexample: on `stayBelowData` the price is below the SMA-20
on both Jan 31 and the scheduled Feb 1 — a continued stay-below, not a
fresh downward crossing — yet the Feb 1 transaction still receives the
SMA-20 boost (`multiplierApplied = 2`, invested `200`), where the claim
requires no boost (`multiplierApplied = 1`). -/
theorem sma_boost_on_stay_below_cex :
    stayBelowData.map (fun pt => decide (pt.price < pt.sma20)) = [true, true]
    ∧ (runBacktestSim sma20OnlyCfg stayBelowData).map
        (fun tx => (tx.date.month, tx.date.day, tx.multiplierApplied, tx.investedAmount))
      = [(1, 1, 2, 200)]
    ∧ (2 : ℚ) ≠ 1 := by
  refine ⟨?_, ?_, ?_⟩ <;> with_unfolding_all decide

theorem ddStep_mono (st : DDState) (v : DatedValue) (hpk : st.peak ≤ v.value)
    (hmax : st.maxDD = 0) (hser : ∀ p ∈ st.series, p.drawdown = 0) :
    (ddStep st v).peak = v.value ∧ (ddStep st v).maxDD = 0
    ∧ ∀ p ∈ (ddStep st v).series, p.drawdown = 0 := by
  have hpeak : (if v.value > st.peak then v.value else st.peak) = v.value := by
    split_ifs with h
    · rfl
    · exact le_antisymm hpk (le_of_not_lt h)
  have hdd : ((if v.value > st.peak then v.value else st.peak) - v.value)
      / (if v.value > st.peak then v.value else st.peak) = 0 := by
    rw [hpeak, sub_self, zero_div]
  refine ⟨?_, ?_, ?_⟩
  · simpa only [ddStep] using hpeak
  · simp only [ddStep, hdd, hmax]
    simp
  · intro p hp
    simp only [ddStep, List.mem_append, List.mem_singleton] at hp
    rcases hp with h | h
    · exact hser p h
    · subst h
      simp [hdd]

theorem ddFoldl_mono :
    ∀ (l : List DatedValue) (st : DDState),
      st.maxDD = 0 →
      (∀ p ∈ st.series, p.drawdown = 0) →
      List.Chain' (fun a b => a.value ≤ b.value) l →
      (∀ x ∈ l.head?, st.peak ≤ x.value) →
      (List.foldl ddStep st l).maxDD = 0
      ∧ (∀ p ∈ (List.foldl ddStep st l).series, p.drawdown = 0)
      ∧ (List.foldl ddStep st l).peak = ((l.getLast?).map DatedValue.value).getD st.peak
  | [], st, hmax, hser, _, _ => ⟨hmax, hser, rfl⟩
  | v :: l, st, hmax, hser, hchain, hpk => by
    have hpkv : st.peak ≤ v.value := hpk v rfl
    have hstep := ddStep_mono st v hpkv hmax hser
    have hch := List.chain'_cons'.mp hchain
    have ih := ddFoldl_mono l (ddStep st v) hstep.2.1 hstep.2.2
      hch.2 (by
        intro x hx
        rw [hstep.1]
        exact hch.1 x hx)
    refine ⟨ih.1, ih.2.1, ?_⟩
    rw [List.foldl_cons] at *
    rw [ih.2.2, hstep.1]
    cases l with
    | nil => rfl
    | cons w l' => rw [List.getLast?_cons_cons]; rfl

/-- C9: on a non-empty, non-decreasing series of positive portfolio
values, `calculateMaxDrawdown` reports a maximum drawdown of 0, a
current drawdown of 0, and an all-zero drawdown series. -/
theorem maxDrawdown_zero_on_monotone (v : DatedValue) (l : List DatedValue)
    (hchain : List.Chain' (fun a b => a.value ≤ b.value) (v :: l))
    (_hpos : ∀ x ∈ v :: l, 0 < x.value) :
    (calculateMaxDrawdown (v :: l)).maxDrawdown = 0
    ∧ (calculateMaxDrawdown (v :: l)).currentDrawdown = 0
    ∧ ∀ p ∈ (calculateMaxDrawdown (v :: l)).drawdownSeries, p.drawdown = 0 := by
  have hfold := ddFoldl_mono (v :: l) ⟨v.value, v.date, 0, v.date, v.date, []⟩
    rfl (by intro p hp; exact absurd hp (List.not_mem_nil p)) hchain
    (by intro x hx; rw [Option.mem_def, List.head?_cons, Option.some_inj] at hx; rw [← hx])
  obtain ⟨x, hx⟩ : ∃ x, (v :: l).getLast? = some x :=
    Option.isSome_iff_exists.mp (by rw [List.getLast?_isSome]; exact List.cons_ne_nil v l)
  refine ⟨?_, ?_, ?_⟩
  · simp only [calculateMaxDrawdown]
    rw [hfold.1, zero_mul]
  · simp only [calculateMaxDrawdown]
    rw [hfold.2.2, hx]
    simp only [Option.map_some', Option.getD_some]
    rw [sub_self, zero_div, zero_mul]
  · simp only [calculateMaxDrawdown]
    exact hfold.2.1

theorem monotonePairChain :
    List.Chain' (fun a b => a.value ≤ b.value) [(⟨"a", 1⟩ : DatedValue), ⟨"b", 2⟩] :=
  List.chain'_pair.mpr (by norm_num)

theorem monotonePairPos : ∀ x ∈ [(⟨"a", 1⟩ : DatedValue), ⟨"b", 2⟩], 0 < x.value := by
  intro x hx
  rcases List.mem_cons.mp hx with h | h
  · subst h; norm_num
  · rw [List.mem_singleton] at h; subst h; norm_num

/-- Witness for C9 on a concrete increasing two-point series. -/
theorem maxDrawdown_zero_on_monotone_witness :
    (calculateMaxDrawdown [⟨"a", 1⟩, ⟨"b", 2⟩]).maxDrawdown = 0
    ∧ (calculateMaxDrawdown [⟨"a", 1⟩, ⟨"b", 2⟩]).currentDrawdown = 0 :=
  ⟨(maxDrawdown_zero_on_monotone ⟨"a", 1⟩ [⟨"b", 2⟩]
      monotonePairChain monotonePairPos).1,
    (maxDrawdown_zero_on_monotone ⟨"a", 1⟩ [⟨"b", 2⟩]
      monotonePairChain monotonePairPos).2.1⟩

theorem insertDesc_head (x : MonthlyReturn) :
    ∀ (l : List MonthlyReturn) (z : MonthlyReturn),
      (insertDesc x l).head? = some z → z = x ∨ l.head? = some z
  | [], z, h => by
    simp only [insertDesc, List.head?_cons, Option.some_inj] at h
    exact Or.inl h.symm
  | y :: ys, z, h => by
    simp only [insertDesc] at h
    split_ifs at h
    · simp only [List.head?_cons, Option.some_inj] at h
      exact Or.inl h.symm
    · simp only [List.head?_cons, Option.some_inj] at h
      exact Or.inr (by rw [List.head?_cons, h])

theorem insertDesc_chain' (x : MonthlyReturn) :
    ∀ (l : List MonthlyReturn),
      List.Chain' (fun a b => b.ret ≤ a.ret) l →
      List.Chain' (fun a b => b.ret ≤ a.ret) (insertDesc x l)
  | [], _ => List.chain'_singleton x
  | y :: ys, h => by
    rw [insertDesc]
    split_ifs with hc
    · exact List.chain'_cons.mpr ⟨hc, h⟩
    · have hys := (List.chain'_cons'.mp h).2
      refine List.chain'_cons'.mpr ⟨?_, insertDesc_chain' x ys hys⟩
      intro z hz
      rw [Option.mem_def] at hz
      rcases insertDesc_head x ys z hz with h1 | h2
      · subst h1
        exact le_of_lt (lt_of_not_ge hc)
      · exact (List.chain'_cons'.mp h).1 z (Option.mem_def.mpr h2)

theorem sortDesc_chain' :
    ∀ l : List MonthlyReturn, List.Chain' (fun a b => b.ret ≤ a.ret) (sortDesc l)
  | [] => List.chain'_nil
  | x :: xs => insertDesc_chain' x (sortDesc xs) (sortDesc_chain' xs)

theorem chain'_desc_getLast :
    ∀ (s : MonthlyReturn) (ss : List MonthlyReturn),
      List.Chain' (fun a b => b.ret ≤ a.ret) (s :: ss) →
      ((s :: ss).getLast (List.cons_ne_nil s ss)).ret ≤ s.ret
  | _, [], _ => le_refl _
  | s, y :: ys, h => by
    have h1 := (List.chain'_cons.mp h).1
    have ih := chain'_desc_getLast y ys (List.chain'_cons.mp h).2
    rw [List.getLast_cons (List.cons_ne_nil y ys)]
    exact le_trans ih h1

/-- C10: the best month's return is at least the worst month's return,
and with fewer than 2 transactions both are 0. -/
theorem bestMonth_ge_worstMonth (txs : List DcaTransaction)
    (_hpos : ∀ tx ∈ txs, 0 < tx.portfolioValue) :
    (calculateBestWorstMonths txs).worst.ret ≤ (calculateBestWorstMonths txs).best.ret
    ∧ (txs.length < 2 →
        (calculateBestWorstMonths txs).best.ret = 0
        ∧ (calculateBestWorstMonths txs).worst.ret = 0) := by
  match txs with
  | [] => exact ⟨le_refl 0, fun _ => ⟨rfl, rfl⟩⟩
  | [t] => exact ⟨le_refl 0, fun _ => ⟨rfl, rfl⟩⟩
  | t0 :: t1 :: rest =>
    refine ⟨?_, ?_⟩
    · simp only [calculateBestWorstMonths]
      cases hsort : sortDesc (monthlyReturnsAux t0.portfolioValue (monthKey t0) t0 (t1 :: rest)) with
      | nil => exact le_refl 0
      | cons s ss =>
        have hchain := sortDesc_chain'
          (monthlyReturnsAux t0.portfolioValue (monthKey t0) t0 (t1 :: rest))
        rw [hsort] at hchain
        exact chain'_desc_getLast s ss hchain
    · intro h
      simp only [List.length_cons] at h
      omega

/-- Witness for C10 on a concrete two-month ledger. -/
theorem bestMonth_ge_worstMonth_witness :
    (calculateBestWorstMonths twoMonthTxs).worst.ret
      ≤ (calculateBestWorstMonths twoMonthTxs).best.ret :=
  (bestMonth_ge_worstMonth twoMonthTxs (by with_unfolding_all decide)).1

theorem smaBoost_nonneg (e : Bool) (mult sma price : ℚ) (h : 1 ≤ mult) :
    0 ≤ smaBoost e mult sma price := by
  unfold smaBoost
  split_ifs
  · linarith
  · exact le_refl 0

theorem vixBoost_nonneg (cfg : RuleConfig) (mv : ℚ) (pt : MarketDataPoint)
    (h : 1 ≤ cfg.vixMultiplier) : 0 ≤ vixBoost cfg mv pt := by
  unfold vixBoost
  split_ifs
  · linarith
  · exact le_refl 0

theorem one_le_sourceMultiplier (cfg : RuleConfig) (mv : ℚ) (pt : MarketDataPoint)
    (hv : cfg.Valid) : 1 ≤ sourceMultiplier cfg mv pt := by
  obtain ⟨hb0, h20, h50, h100, h200, hvx⟩ := hv
  rw [sourceMultiplier_eq_ruleMultiplier]
  unfold ruleMultiplier
  have a1 := smaBoost_nonneg cfg.useSma20Rule cfg.sma20Multiplier pt.sma20 pt.price h20
  have a2 := smaBoost_nonneg cfg.useSma50Rule cfg.sma50Multiplier pt.sma50 pt.price h50
  have a3 := smaBoost_nonneg cfg.useSmaRule cfg.sma100Multiplier pt.sma100 pt.price h100
  have a4 := smaBoost_nonneg cfg.useSma200Rule cfg.sma200Multiplier pt.sma200 pt.price h200
  have a5 := vixBoost_nonneg cfg mv pt hvx
  linarith

theorem processDate_nonneg (cfg : RuleConfig) (bonus mv : ℚ) (st : SimState)
    (pt : MarketDataPoint) (hv : cfg.Valid) (hp : 0 < pt.price)
    (hs : 0 ≤ st.savedCash) (hd : 0 ≤ st.budgetDebt) :
    0 ≤ (processDate cfg bonus mv st pt).2.sharesBought
    ∧ 0 ≤ (processDate cfg bonus mv st pt).1.savedCash
    ∧ 0 ≤ (processDate cfg bonus mv st pt).1.budgetDebt := by
  have hb0 : 0 < cfg.baseAmount := hv.1
  have hmult : 1 ≤ sourceMultiplier cfg mv pt := one_le_sourceMultiplier cfg mv pt hv
  have hdebt1 : 0 ≤ debtAfterWaive cfg st := by
    unfold debtAfterWaive
    split_ifs with h
    · linarith
    · exact hd
  have hpre : 0 ≤ preRuleAmount cfg bonus st pt := by
    unfold preRuleAmount effectiveBase
    split_ifs <;> linarith
  simp only [processDate]
  split_ifs with h1 h2 h3 h4 h5 h6 <;>
    refine ⟨?_, ?_, ?_⟩ <;>
    simp only <;>
    try first
      | exact hs
      | exact hd
      | exact hdebt1
      | exact le_refl 0
      | linarith
      | exact div_nonneg (by linarith) (le_of_lt hp)
      | exact div_nonneg (mul_nonneg (by linarith) (by linarith)) (le_of_lt hp)

theorem processDate_shares (cfg : RuleConfig) (bonus mv : ℚ) (st : SimState)
    (pt : MarketDataPoint) :
    (processDate cfg bonus mv st pt).1.totalShares
      = st.totalShares + (processDate cfg bonus mv st pt).2.sharesBought
    ∧ (processDate cfg bonus mv st pt).2.accumulatedShares
      = (processDate cfg bonus mv st pt).1.totalShares := by
  simp only [processDate]
  split_ifs <;> exact ⟨by simp, rfl⟩

theorem runSimAux_invariant (cfg : RuleConfig) (hv : cfg.Valid) (bonus : ℚ) :
    ∀ (pairs : List (MarketDataPoint × ℚ)) (st : SimState),
      (∀ pm ∈ pairs, 0 < pm.1.price) → 0 ≤ st.savedCash → 0 ≤ st.budgetDebt →
      accFrom st.totalShares (runSimAux cfg bonus st pairs)
      ∧ ∀ tx ∈ runSimAux cfg bonus st pairs, 0 ≤ tx.sharesBought
  | [], st, _, _, _ => ⟨trivial, fun tx htx => absurd htx (List.not_mem_nil tx)⟩
  | (pt, mv) :: rest, st, hprice, hs, hd => by
    have hp : 0 < pt.price := hprice (pt, mv) (List.mem_cons_self _ _)
    have hnn := processDate_nonneg cfg bonus mv st pt hv hp hs hd
    have hsh := processDate_shares cfg bonus mv st pt
    have ih := runSimAux_invariant cfg hv bonus rest (processDate cfg bonus mv st pt).1
      (fun pm hpm => hprice pm (List.mem_cons_of_mem _ hpm)) hnn.2.1 hnn.2.2
    constructor
    · rw [runSimAux]
      exact ⟨hsh.2.trans hsh.1, hsh.2 ▸ ih.1⟩
    · intro tx htx
      rw [runSimAux] at htx
      rcases List.mem_cons.mp htx with h | h
      · exact h ▸ hnn.1
      · exact ih.2 tx h

theorem accFrom_get :
    ∀ (L : List DcaTransaction) (s : ℚ), accFrom s L →
      ∀ (i : Nat) (hi : i < L.length),
        (L.get ⟨i, hi⟩).accumulatedShares
          = s + ((L.take (i + 1)).map DcaTransaction.sharesBought).sum
  | [], _, _, i, hi => absurd hi (by simp)
  | tx :: rest, s, h, 0, _ => by
    simp only [List.get, List.take, List.map, List.sum_cons, List.sum_nil]
    rw [h.1]
    ring
  | tx :: rest, s, h, i + 1, hi => by
    have ih := accFrom_get rest tx.accumulatedShares h.2 i (by simpa using hi)
    simp only [List.get, List.take, List.map, List.sum_cons]
    rw [ih, h.1]
    ring

theorem accFrom_mem_le :
    ∀ (L : List DcaTransaction) (s : ℚ), accFrom s L →
      (∀ tx ∈ L, 0 ≤ tx.sharesBought) → ∀ tx ∈ L, s ≤ tx.accumulatedShares
  | [], _, _, _, tx, htx => absurd htx (List.not_mem_nil tx)
  | tx :: rest, s, h, hn, tx', htx' => by
    have hstep : s ≤ tx.accumulatedShares := by
      have := hn tx (List.mem_cons_self tx rest)
      rw [h.1]
      linarith
    rcases List.mem_cons.mp htx' with h1 | h2
    · exact h1 ▸ hstep
    · exact le_trans hstep
        (accFrom_mem_le rest tx.accumulatedShares h.2
          (fun t ht => hn t (List.mem_cons_of_mem _ ht)) tx' h2)

theorem accFrom_sorted :
    ∀ (L : List DcaTransaction) (s : ℚ), accFrom s L →
      (∀ tx ∈ L, 0 ≤ tx.sharesBought) →
      (L.map DcaTransaction.accumulatedShares).Sorted (· ≤ ·)
  | [], _, _, _ => List.sorted_nil
  | tx :: rest, s, h, hn => by
    rw [List.map_cons, List.sorted_cons]
    refine ⟨?_, accFrom_sorted rest tx.accumulatedShares h.2
      (fun t ht => hn t (List.mem_cons_of_mem _ ht))⟩
    intro b hb
    rcases List.mem_map.mp hb with ⟨tx', htx', rfl⟩
    exact accFrom_mem_le rest tx.accumulatedShares h.2
      (fun t ht => hn t (List.mem_cons_of_mem _ ht)) tx' htx'

theorem runBacktestImport_invariant (data : List MarketDataPoint) :
    ∀ (ptxs : List ApiTransaction) (s0 : ℚ),
      (∀ ptx ∈ ptxs, 0 ≤ ptx.quantity) →
      accFrom s0 (runBacktestImport data s0 ptxs)
      ∧ ∀ tx ∈ runBacktestImport data s0 ptxs, 0 ≤ tx.sharesBought
  | [], _, _ => ⟨trivial, fun tx htx => absurd htx (List.not_mem_nil tx)⟩
  | ptx :: rest, s0, hq => by
    have ih := runBacktestImport_invariant data rest (s0 + ptx.quantity)
      (fun p hp => hq p (List.mem_cons_of_mem _ hp))
    constructor
    · rw [runBacktestImport]
      exact ⟨rfl, ih.1⟩
    · intro tx htx
      rw [runBacktestImport] at htx
      rcases List.mem_cons.mp htx with h1 | h2
      · rw [h1]
        exact hq ptx (List.mem_cons_self _ _)
      · exact ih.2 tx h2

theorem dedupByMonth_subset :
    ∀ (seen : List (Nat × Nat)) (l : List MarketDataPoint) (x : MarketDataPoint),
      x ∈ dedupByMonth seen l → x ∈ l
  | _, [], x, hx => absurd hx (List.not_mem_nil x)
  | seen, pt :: rest, x, hx => by
    rw [dedupByMonth] at hx
    split_ifs at hx with h
    · exact List.mem_cons_of_mem _ (dedupByMonth_subset seen rest x hx)
    · rcases List.mem_cons.mp hx with h1 | h2
      · exact h1 ▸ List.mem_cons_self _ _
      · exact List.mem_cons_of_mem _ (dedupByMonth_subset _ rest x h2)

theorem filteredDates_subset (freq : Frequency) (data : List MarketDataPoint) :
    ∀ x ∈ filteredDates freq data, x ∈ data := by
  intro x hx
  unfold filteredDates at hx
  split_ifs at hx
  · exact List.mem_of_mem_filter (dedupByMonth_subset [] _ x hx)
  · exact List.mem_of_mem_filter hx

/-- C6: in both engine modes — schedule-driven simulation with a valid
rule configuration and positive prices, and portfolio import with
non-negative quantities — every transaction's `accumulatedShares`
equals the sum of `sharesBought` over that transaction and all earlier
ones, and the sequence of `accumulatedShares` values is non-decreasing. -/
theorem ledger_running_sum_and_monotone (cfg : RuleConfig) (data : List MarketDataPoint)
    (ptxs : List ApiTransaction) (hv : cfg.Valid)
    (hp : ∀ pt ∈ data, 0 < pt.price) (hq : ∀ ptx ∈ ptxs, 0 ≤ ptx.quantity) :
    (∀ (i : Nat) (hi : i < (runBacktestSim cfg data).length),
      ((runBacktestSim cfg data).get ⟨i, hi⟩).accumulatedShares
        = (((runBacktestSim cfg data).take (i + 1)).map DcaTransaction.sharesBought).sum)
    ∧ ((runBacktestSim cfg data).map DcaTransaction.accumulatedShares).Sorted (· ≤ ·)
    ∧ (∀ (i : Nat) (hi : i < (runBacktestImport data 0 ptxs).length),
      ((runBacktestImport data 0 ptxs).get ⟨i, hi⟩).accumulatedShares
        = (((runBacktestImport data 0 ptxs).take (i + 1)).map DcaTransaction.sharesBought).sum)
    ∧ ((runBacktestImport data 0 ptxs).map DcaTransaction.accumulatedShares).Sorted (· ≤ ·) := by
  have hpairs : ∀ pm ∈ (filteredDates cfg.frequency data).zip
      (maxVixList data 0 (filteredDates cfg.frequency data)), 0 < pm.1.price := by
    intro pm hpm
    obtain ⟨a, b⟩ := pm
    exact hp a (filteredDates_subset cfg.frequency data a (List.of_mem_zip hpm).1)
  have hsim := runSimAux_invariant cfg hv
    (sellInMayBonus cfg (filteredDates cfg.frequency data))
    ((filteredDates cfg.frequency data).zip
      (maxVixList data 0 (filteredDates cfg.frequency data)))
    ⟨0, 0, 0, 0⟩ hpairs (le_refl 0) (le_refl 0)
  have hacc : accFrom 0 (runBacktestSim cfg data) := hsim.1
  have hnn : ∀ tx ∈ runBacktestSim cfg data, 0 ≤ tx.sharesBought := hsim.2
  have himp := runBacktestImport_invariant data ptxs 0 hq
  refine ⟨?_, ?_, ?_, ?_⟩
  · intro i hi
    rw [accFrom_get (runBacktestSim cfg data) 0 hacc i hi, zero_add]
  · exact accFrom_sorted (runBacktestSim cfg data) 0 hacc hnn
  · intro i hi
    rw [accFrom_get (runBacktestImport data 0 ptxs) 0 himp.1 i hi, zero_add]
  · exact accFrom_sorted (runBacktestImport data 0 ptxs) 0 himp.1 himp.2

/-- Witness for C6 on concrete runs of both modes. -/
theorem ledger_running_sum_and_monotone_witness :
    sellInMayCfg.Valid
    ∧ ((runBacktestSim sellInMayCfg fullYearData).map
        DcaTransaction.accumulatedShares).Sorted (· ≤ ·)
    ∧ ((runBacktestImport fullYearData 0 [importJoinPtx]).map
        DcaTransaction.accumulatedShares).Sorted (· ≤ ·) :=
  ⟨by with_unfolding_all decide,
    (ledger_running_sum_and_monotone sellInMayCfg fullYearData [importJoinPtx]
      (by with_unfolding_all decide) (by with_unfolding_all decide)
      (by with_unfolding_all decide)).2.1,
    (ledger_running_sum_and_monotone sellInMayCfg fullYearData [importJoinPtx]
      (by with_unfolding_all decide) (by with_unfolding_all decide)
      (by with_unfolding_all decide)).2.2.2⟩
